import Mathlib

set_option maxRecDepth 8000

/-! Verification development for the enviper configuration-overlay library
(src/enviper.go).  The in-repository functions (Unmarshal, readEnvs,
bindEnvs, supportedCast, SliceDecodeHook) are embedded faithfully from the
source.  The external collaborators that the repository only calls -- the
configuration store, the structure decoder, the process environment and the
structured-text (JSON) codec -- are modelled from the specification's
interface contracts (spec sections 3, 4 and 6). -/

/-- Character-wise lower-casing, modelling strings.ToLower on ASCII keys. -/
def lowerStr (s : String) : String := ⟨s.data.map Char.toLower⟩

/-- Character-wise upper-casing, modelling strings.ToUpper on ASCII keys. -/
def upperStr (s : String) : String := ⟨s.data.map Char.toUpper⟩

/-- Replacement of one character, used for the store's separator rule. -/
def dotRepl (c : Char) : Char := if c = '.' then '_' else c

/-- Modelling of strings.NewReplacer(".", "_").Replace. -/
def replaceDots (s : String) : String := ⟨s.data.map dotRepl⟩

/-- Boolean string-prefix test (strings.HasPrefix). -/
def pfxOf (p s : String) : Bool := p.data.isPrefixOf s.data

/-- Modelling of strings.Join(xs, ".") as used for store path keys. -/
def dotJoin : List String → String
  | [] => ""
  | [s] => s
  | s :: rest => s ++ "." ++ dotJoin rest

/-- Modelling of strings.Join(xs, " ") as used by the slice binding. -/
def spaceJoin : List String → String
  | [] => ""
  | [s] => s
  | s :: rest => s ++ " " ++ spaceJoin rest

/-- Accumulator for whitespace splitting. -/
def fieldsAux : List Char → List Char → List String
  | [], acc => if acc.isEmpty then [] else [⟨acc.reverse⟩]
  | c :: rest, acc =>
    if c = ' ' then
      if acc.isEmpty then fieldsAux rest [] else ⟨acc.reverse⟩ :: fieldsAux rest []
    else fieldsAux rest (c :: acc)

/-- Modelled from the spec: the store splits a scalar string on whitespace
when coercing it into a sequence of text-representable primitives
(spec section 4.3); this mirrors strings.Fields. -/
def wsFields (s : String) : List String := fieldsAux s.data []

/-- Association-list lookup (first match wins), used for the store tables
and the process environment. -/
def alookup {α : Type} : List (String × α) → String → Option α
  | [], _ => none
  | (n, v) :: rest, k => if n = k then some v else alookup rest k

/-- Association-list update in place (or append when absent). -/
def setAssoc {α : Type} : List (String × α) → String → α → List (String × α)
  | [], k, v => [(k, v)]
  | (n, w) :: rest, k, v =>
    if n = k then (k, v) :: rest else (n, w) :: setAssoc rest k v

/-- Modelled from the spec: the process environment is an enumeration-ordered
list of name/value pairs (spec sections 1 and 5). -/
abbrev Env := List (String × String)

/-- Modelled from the spec: os.Getenv-style lookup of one variable. -/
def envLookup (env : Env) (k : String) : Option String := alookup env k

/-- Modelled from the spec: os.Setenv; an existing variable is updated in
place, a new one is appended at the end of the enumeration. -/
def envSet (env : Env) (k : String) (w : String) : Env := setAssoc env k w

/-- Modelled from the spec: the store's lazy environment read; an empty value
counts as unset, so a binding whose variable is absent falls back to the
file-set or default value (spec section 4.2). -/
def getEnvOk (env : Env) (nm : String) : Option String :=
  match envLookup env nm with
  | some v => if v = "" then none else some v
  | none => none

/-- Search for a character sequence at any position of another. -/
def hasSub (needle : List Char) : List Char → Bool
  | [] => needle.isEmpty
  | c :: rest => needle.isPrefixOf (c :: rest) || hasSub needle rest

/-- Substring containment test (strings.Contains). -/
def containsSub (hay needle : String) : Bool := hasSub needle.data hay.data

/-- Splitting of a struct tag at its first comma (strings.Index on ","),
returning the name part and the remaining options. -/
def tagSplit (s : String) : Option (String × String) :=
  match s.data.findIdx? (· = ',') with
  | some i => some (⟨s.data.take i⟩, ⟨s.data.drop (i + 1)⟩)
  | none => none

/-! JSON model.  Modelled from the spec: the structured-text (JSON-equivalent)
codec of spec section 4.3, restricted to the scalar/array subset the
sequence-binding path exchanges (null, booleans, integers, plain strings
without escapes, arrays, and no interior whitespace). -/

mutual
inductive JVal where
  | jnull : JVal
  | jbool (b : Bool) : JVal
  | jnum (n : Int) : JVal
  | jstr (s : String) : JVal
  | jarr (xs : JArr) : JVal
  deriving DecidableEq
inductive JArr where
  | anil : JArr
  | acons (v : JVal) (rest : JArr) : JArr
  deriving DecidableEq
end

/-- Numeric value of a digit list. -/
def digitsVal (cs : List Char) : Nat :=
  cs.foldl (fun a c => a * 10 + (c.toNat - 48)) 0

/-- Array-tail portion of the JSON reader: a sequence of values separated by
commas and closed by a bracket, the element reader passed as an argument. -/
def jparseArr (jp : List Char → Option (JVal × List Char)) :
    Nat → List Char → Option (JArr × List Char)
  | 0, _ => none
  | fuel + 1, cs =>
    match jp cs with
    | none => none
    | some (v, rest) =>
      match rest with
      | ',' :: rest2 =>
        match jparseArr jp fuel rest2 with
        | some (xs, r) => some (.acons v xs, r)
        | none => none
      | ']' :: rest2 => some (.acons v .anil, rest2)
      | _ => none

/-- Recursive JSON value reader over a character list with structural fuel. -/
def jparse : Nat → List Char → Option (JVal × List Char)
  | 0, _ => none
  | fuel + 1, cs =>
    match cs with
    | 'n' :: 'u' :: 'l' :: 'l' :: rest => some (.jnull, rest)
    | 't' :: 'r' :: 'u' :: 'e' :: rest => some (.jbool true, rest)
    | 'f' :: 'a' :: 'l' :: 's' :: 'e' :: rest => some (.jbool false, rest)
    | '"' :: rest =>
      let content := rest.takeWhile (· ≠ '"')
      match rest.drop content.length with
      | '"' :: r => some (.jstr ⟨content⟩, r)
      | _ => none
    | '[' :: rest =>
      match rest with
      | ']' :: r => some (.jarr .anil, r)
      | _ =>
        match jparseArr (jparse fuel) (rest.length + 1) rest with
        | some (xs, r) => some (.jarr xs, r)
        | none => none
    | '-' :: d :: rest =>
      if d.isDigit then
        let ds := (d :: rest).takeWhile Char.isDigit
        some (.jnum (-(digitsVal ds : Int)), (d :: rest).drop ds.length)
      else none
    | d :: rest =>
      if d.isDigit then
        let ds := (d :: rest).takeWhile Char.isDigit
        some (.jnum (digitsVal ds : Int), (d :: rest).drop ds.length)
      else none
    | _ => none

/-- Modelled from the spec: json.Unmarshal of a whole string into a generic
value; the input must be consumed completely or the parse fails. -/
def jsonParse (s : String) : Option JVal :=
  match jparse (s.data.length + 1) s.data with
  | some (v, []) => some v
  | _ => none

mutual
/-- Modelled from the spec: json.Marshal of the subset JSON values. -/
def jser : JVal → String
  | .jnull => "null"
  | .jbool true => "true"
  | .jbool false => "false"
  | .jnum n => toString n
  | .jstr s => "\"" ++ s ++ "\""
  | .jarr xs => "[" ++ jserArr xs ++ "]"
/-- Comma-separated serialization of a JSON array body. -/
def jserArr : JArr → String
  | .anil => ""
  | .acons v .anil => jser v
  | .acons v (.acons w rest) => jser v ++ "," ++ jserArr (.acons w rest)
end

/-- Conversion of a plain list of JSON values into the array representation. -/
def toJArr : List JVal → JArr
  | [] => .anil
  | v :: rest => .acons v (toJArr rest)

/-! Go data model.  Scalar kinds distinguish exactly the dynamic types that
the supportedCast type switch names. -/

/-- Scalar kinds of the Go configuration schema. -/
inductive SKind where
  | sbool | sstr
  | sint | sint8 | sint16 | sint32 | sint64
  | suint | suint32 | suint64
  | sfloat32 | sfloat64
  | stime | sduration
  deriving DecidableEq

mutual
/-- Shape of one position of the target configuration type (reflect.Type). -/
inductive GoTy where
  | prim (k : SKind) : GoTy
  | ptr (t : GoTy) : GoTy
  | smap (vt : GoTy) : GoTy
  | slice (elem : GoTy) : GoTy
  | strct (fs : FieldsTy) : GoTy
  deriving DecidableEq
/-- Ordered struct fields: declared name, raw struct tag, field type. -/
inductive FieldsTy where
  | fnil : FieldsTy
  | fcons (nm : String) (tag : Option String) (ty : GoTy) (rest : FieldsTy) : FieldsTy
  deriving DecidableEq
end

mutual
/-- Runtime Go value (reflect.Value); scalars carry their text rendering. -/
inductive GoVal where
  | vprim (s : String) : GoVal
  | vptrNil : GoVal
  | vptr (v : GoVal) : GoVal
  | vmap (es : VEntries) : GoVal
  | vslice (es : VList) : GoVal
  | vstruct (fs : VList) : GoVal
  deriving DecidableEq
/-- Runtime entries of a string-keyed map. -/
inductive VEntries where
  | enil : VEntries
  | econs (k : String) (v : GoVal) (rest : VEntries) : VEntries
  deriving DecidableEq
/-- Runtime list of values (slice elements or struct fields in order). -/
inductive VList where
  | lnil : VList
  | lcons (v : GoVal) (rest : VList) : VList
  deriving DecidableEq
end

mutual
/-- Freshly-constructed zero value of a type (reflect.New(...).Elem()). -/
def zeroVal : GoTy → GoVal
  | .prim _ => .vprim ""
  | .ptr _ => .vptrNil
  | .smap _ => .vmap .enil
  | .slice _ => .vslice .lnil
  | .strct fs => .vstruct (zeroFields fs)
/-- Zero values of a field list. -/
def zeroFields : FieldsTy → VList
  | .fnil => .lnil
  | .fcons _ _ t rest => .lcons (zeroVal t) (zeroFields rest)
end

mutual
/-- Recursion depth of a type, used as structural fuel for the walkers. -/
def tyDepth : GoTy → Nat
  | .prim _ => 1
  | .ptr t => tyDepth t + 1
  | .smap vt => tyDepth vt + 1
  | .slice _ => 1
  | .strct fs => fieldsDepth fs + 1
/-- Combined depth over a field list, an upper bound on every field's depth. -/
def fieldsDepth : FieldsTy → Nat
  | .fnil => 0
  | .fcons _ _ t rest => fieldsDepth rest + tyDepth t
end

/-! Store model.  Modelled from the spec: the configuration store keeps
file-loaded values and defaults under dotted lower-case keys, a set of keys
lazily bound to environment-variable names, an optional name prefix, and a
configurable separator-substitution rule (spec section 6). -/

/-- Modelled from the spec: state of the configuration store collaborator. -/
structure VStore where
  config : List (String × GoVal)
  defaults : List (String × GoVal)
  bindings : List String
  envPfx : String
  replacerOn : Bool
  deriving DecidableEq

/-- Value produced by a store read: either a raw environment string or a
structured value coming from the file or a registered default. -/
inductive SrcVal where
  | estr (s : String) : SrcVal
  | gval (v : GoVal) : SrcVal
  deriving DecidableEq

/-- Modelled from the spec: EnvVariableName resolution of the store -- the
key is upper-cased, the prefix prepended when configured, and the structural
separator replaced with an underscore when the replacer rule is set
(spec section 3). -/
def viperEnvName (st : VStore) (key : String) : String :=
  let n := if st.envPfx = "" then upperStr key else upperStr (st.envPfx ++ "_" ++ key)
  if st.replacerOn then replaceDots n else n

/-- Modelled from the spec: a store read for a dotted key -- an environment
value of a bound key takes precedence, then the file-loaded value, then the
registered default (spec sections 4.2 and 4.4). -/
def viperGet (st : VStore) (env : Env) (key : String) : Option SrcVal :=
  let k := lowerStr key
  match (if st.bindings.contains k then getEnvOk env (viperEnvName st k) else none) with
  | some s => some (.estr s)
  | none =>
    match alookup st.config k with
    | some v => some (.gval v)
    | none =>
      match alookup st.defaults k with
      | some v => some (.gval v)
      | none => none

/-- Dotted keys the store currently holds a value for: file keys, default
keys, and bound keys whose environment variable is set non-empty. -/
def knownKeys (st : VStore) (env : Env) : List String :=
  st.config.map (·.1) ++ st.defaults.map (·.1) ++
    st.bindings.filter (fun b => (getEnvOk env (viperEnvName st b)).isSome)

/-- Test that a dotted key lies at or below a path key. -/
def underKey (pk k : String) : Bool :=
  pk = "" || k = pk || pfxOf (pk ++ ".") k

/-- Test that the store holds any value at or below a path key. -/
def storeHasUnder (st : VStore) (env : Env) (pk : String) : Bool :=
  (knownKeys st env).any (underKey pk)

/-- Next path segment of a dotted key strictly below a path key. -/
def childSeg (pk k : String) : Option String :=
  if pk = "" then
    if k = "" then none else some ⟨k.data.takeWhile (· ≠ '.')⟩
  else if pfxOf (pk ++ ".") k then
    some ⟨(k.data.drop (pk.data.length + 1)).takeWhile (· ≠ '.')⟩
  else none

/-- Runtime key names of a mapping node, derived from the keys the store
holds below the node's path. -/
def mapKeysUnder (st : VStore) (env : Env) (pk : String) : List String :=
  ((knownKeys st env).filterMap (childSeg pk)).dedup

/-- Embedded from supportedCast (src/enviper.go): the type switch runs on the
dynamic type of the value itself, so for a slice only the two slice cases,
[] string and [] int, can match; every branch leaves the value unchanged. -/
def castedByViper : GoTy → Bool
  | .prim .sbool => true
  | .prim .sstr => true
  | .prim .sint32 => true
  | .prim .sint16 => true
  | .prim .sint8 => true
  | .prim .sint => true
  | .prim .suint => true
  | .prim .suint32 => true
  | .prim .suint64 => true
  | .prim .sint64 => true
  | .prim .sfloat64 => true
  | .prim .sfloat32 => true
  | .prim .stime => true
  | .prim .sduration => true
  | .slice (.prim .sstr) => true
  | .slice (.prim .sint) => true
  | _ => false

/-- Embedded from supportedCast (src/enviper.go): every case assigns tp = t,
so the returned value is the input; the flag records whether a case of the
type switch matched. -/
def supportedCast (ty : GoTy) (v : GoVal) : GoVal × Bool :=
  (v, castedByViper ty)

/-- Kind test for a slice type (reflect.Kind() == reflect.Slice). -/
def isSliceTy : GoTy → Bool
  | .slice _ => true
  | _ => false

/-- Conjunction of an element check over a JSON array body. -/
def jarrFitsF (f : JVal → Bool) : JArr → Bool
  | .anil => true
  | .acons v rest => f v && jarrFitsF f rest

/-- Modelled from the spec: the shape check json.Unmarshal performs against
the concrete target type it decodes into -- an array (or null) per slice
level with every element fitting the element type, a JSON string for string
and time targets, a JSON boolean for booleans, a JSON number for the numeric
and duration kinds, null allowed for pointers; struct and map targets are
JSON objects, which lie outside the modelled subset and are rejected. -/
def jsonFits : GoTy → JVal → Bool
  | .prim .sstr, .jstr _ => true
  | .prim .stime, .jstr _ => true
  | .prim .sbool, .jbool _ => true
  | .prim .sint, .jnum _ => true
  | .prim .sint8, .jnum _ => true
  | .prim .sint16, .jnum _ => true
  | .prim .sint32, .jnum _ => true
  | .prim .sint64, .jnum _ => true
  | .prim .suint, .jnum _ => true
  | .prim .suint32, .jnum _ => true
  | .prim .suint64, .jnum _ => true
  | .prim .sfloat32, .jnum _ => true
  | .prim .sfloat64, .jnum _ => true
  | .prim .sduration, .jnum _ => true
  | .slice et, .jarr xs => jarrFitsF (jsonFits et) xs
  | .slice _, .jnull => true
  | .ptr _, .jnull => true
  | .ptr t, j => jsonFits t j
  | _, _ => false

/-- Embedded from SliceDecodeHook (src/enviper.go): data whose source type is
not a string or whose target type is not a slice passes through; otherwise
the string is JSON-decoded into a freshly constructed instance of the target
slice type, so a decode failure -- unparsable text or a JSON value that does
not fit the target's shape -- returns the data unchanged; the error
component is always nil. -/
def sliceDecodeHook (srcIsString : Bool) (t : GoTy) (data : String) :
    (String ⊕ JVal) × Option String :=
  if srcIsString = false then (.inl data, none)
  else if isSliceTy t = false then (.inl data, none)
  else
    match jsonParse data with
    | some j => if jsonFits t j then (.inr j, none) else (.inl data, none)
    | none => (.inl data, none)

mutual
/-- Rendering of a subset JSON value as a decoded Go value. -/
def jvalToGoVal : JVal → GoVal
  | .jnull => .vprim ""
  | .jbool true => .vprim "true"
  | .jbool false => .vprim "false"
  | .jnum n => .vprim (toString n)
  | .jstr s => .vprim s
  | .jarr xs => .vslice (jarrToVals xs)
/-- Mapping of a JSON array body into slice elements. -/
def jarrToVals : JArr → VList
  | .anil => .lnil
  | .acons v rest => .lcons (jvalToGoVal v) (jarrToVals rest)
end

/-- Conversion of split strings into slice elements. -/
def strsToVals : List String → VList
  | [] => .lnil
  | s :: rest => .lcons (.vprim s) (strsToVals rest)

/-- Dotted lower-case store key of a path. -/
def pathKey (path : List String) : String := lowerStr (dotJoin path)

/-! Structure decoder.  Modelled from the spec: the external decode routine
copies the weakly-typed store into the typed target, consulting the store per
path key, special-casing string-to-slice values through the type-coercion
hook, splitting scalar strings on whitespace for primitive sequences, and
skipping fields whose tag name part is "-" (spec sections 4.3 and 6). -/

/-- Modelled from the spec: per-field traversal of the structure decoder; the
recursion over the field's type is taken as an argument. -/
def decodeFieldsF (rec : GoTy → List String → GoVal) :
    FieldsTy → List String → VList
  | .fnil, _ => .lnil
  | .fcons nm tag fty rest, path =>
    let fv :=
      match tag with
      | none => rec fty (path ++ [nm])
      | some tv =>
        match tagSplit tv with
        | some (np, rp) =>
          if np = "-" then zeroVal fty
          else if containsSub rp "squash" then rec fty path
          else rec fty (path ++ [if np = "" then nm else np])
        | none =>
          if tv = "-" then zeroVal fty
          else rec fty (path ++ [if tv = "" then nm else tv])
    .lcons fv (decodeFieldsF rec rest path)

/-- Conversion of keyed decode results into map entries. -/
def toEntries : List (String × GoVal) → VEntries
  | [] => .enil
  | (k, v) :: rest => .econs k v (toEntries rest)

/-- Modelled from the spec: the structure decoder.  A scalar takes the store
value for its path key; a struct recurses per field under tag semantics; an
optional (pointer) node materializes exactly when the store holds something
below its path; a mapping node takes the store's runtime keys below its path;
a sequence node passes a string store value through the type-coercion hook,
falling back to whitespace splitting (spec sections 4.3, 4.4 and 6). -/
def decodeF (st : VStore) (env : Env) : Nat → GoTy → List String → GoVal
  | 0, ty, _ => zeroVal ty
  | fuel + 1, ty, path =>
    match ty with
    | .prim _ =>
      match viperGet st env (pathKey path) with
      | some (.estr s) => .vprim s
      | some (.gval v) => v
      | none => .vprim ""
    | .strct fs => .vstruct (decodeFieldsF (decodeF st env fuel) fs path)
    | .ptr t =>
      if storeHasUnder st env (pathKey path) then .vptr (decodeF st env fuel t path)
      else .vptrNil
    | .smap vt =>
      .vmap (toEntries ((mapKeysUnder st env (pathKey path)).map
        (fun s => (s, decodeF st env fuel vt (path ++ [s])))))
    | .slice et =>
      match viperGet st env (pathKey path) with
      | some (.estr s) =>
        match sliceDecodeHook true (.slice et) s with
        | (.inr (.jarr xs), _) => .vslice (jarrToVals xs)
        | (.inr _, _) => .vslice .lnil
        | (.inl s2, _) => .vslice (strsToVals (wsFields s2))
      | some (.gval v) => v
      | none => .vslice .lnil

/-! Embedded traversal.  The following definitions are the shallow embedding
of bindEnvs and its slice branch from src/enviper.go. -/

/-- Embedded from bindEnvs (src/enviper.go, default and scalar cases): the
key is bound to its environment-variable name through the store; the
registration is skipped for the empty key, for which the store's BindEnv
reports an error that the caller discards. -/
def bindKey (st : VStore) (key : String) : VStore :=
  if key = "" then st
  else { st with bindings := st.bindings ++ [lowerStr key] }

/-- Embedded from bindEnvs (src/enviper.go, slice case): the resolved
environment-variable name of a dotted key -- separator replacement when the
replacer is set, prefix prepending and upper-casing. -/
def resolveEnvVarName (st : VStore) (envKey : String) : String :=
  let key1 := if st.replacerOn then replaceDots envKey else envKey
  let key2 := if st.envPfx = "" then key1 else upperStr (st.envPfx ++ "_" ++ key1)
  upperStr key2

/-- Embedded from bindEnvs (src/enviper.go, slice case): the scan of
os.Environ() collecting the current value of every variable whose
name=value rendering starts with the resolved name plus an underscore. -/
def scanValues (env : Env) (key : String) : List String :=
  env.filterMap (fun p =>
    if pfxOf (key ++ "_") (p.1 ++ "=" ++ p.2) then
      some ((envLookup env p.1).getD "")
    else none)

/-- Embedded from bindEnvs (src/enviper.go, slice case): bind the dotted key,
resolve the variable name, collect suffixed variables, register the current
value as the default, then either write the space-joined values back (types
supportedCast accepts) or JSON-decode each value -- keeping the raw string on
a parse failure -- and write the re-serialized array back. -/
def bindSlice (st : VStore) (env : Env) (et : GoTy) (v : GoVal)
    (prev : List String) : VStore × Env :=
  let envKey := dotJoin prev
  let st1 := bindKey st envKey
  let key := resolveEnvVarName st1 envKey
  let values := scanValues env key
  let cast := supportedCast (GoTy.slice et) v
  let st2 := { st1 with defaults := setAssoc st1.defaults (lowerStr envKey) cast.1 }
  if cast.2 then
    (st2, envSet env key (spaceJoin values))
  else
    let dvs := values.map (fun s =>
      match jsonParse s with
      | some j => j
      | none => JVal.jstr s)
    (st2, envSet env key (jser (.jarr (toJArr dvs))))

/-- Embedded from bindEnvs (src/enviper.go, struct case): per-field handling
-- one level of pointer indirection is dereferenced, a nil pointer replaced
by a fresh zero value of the pointee; a tag name part "-" before a comma
skips the field; "squash" among the options recurses at the current prefix;
otherwise the tag name (or the declared name when absent or empty) is
appended as the path segment.  The recursion into the field is an argument. -/
def bindFieldsF (rec : VStore → Env → GoTy → GoVal → List String → VStore × Env) :
    VStore → Env → FieldsTy → VList → List String → VStore × Env
  | st, env, .fcons nm tag fty rest, .lcons fv vrest, prev =>
    let d : GoTy × GoVal :=
      match fty, fv with
      | .ptr pt, .vptrNil => (pt, zeroVal pt)
      | .ptr pt, .vptr w => (pt, w)
      | t2, w => (t2, w)
    let step : VStore × Env :=
      match tag with
      | none => rec st env d.1 d.2 (prev ++ [nm])
      | some tv =>
        match tagSplit tv with
        | some (np, rp) =>
          if np = "-" then (st, env)
          else if containsSub rp "squash" then rec st env d.1 d.2 prev
          else rec st env d.1 d.2 (prev ++ [if np = "" then nm else np])
        | none => rec st env d.1 d.2 (prev ++ [if tv = "" then nm else tv])
    bindFieldsF rec step.1 step.2 rest vrest prev
  | st, env, _, _, _ => (st, env)

/-- Embedded from bindEnvs (src/enviper.go, map case): recursion into every
entry with its runtime key appended; in the model all keys are strings, the
source skips non-string keys. -/
def bindEntriesF (rec : VStore → Env → GoTy → GoVal → List String → VStore × Env) :
    VStore → Env → GoTy → VEntries → List String → VStore × Env
  | st, env, vt, .econs k v rest, prev =>
    let step := rec st env vt v (prev ++ [k])
    bindEntriesF rec step.1 step.2 vt rest prev
  | st, env, _, .enil, _ => (st, env)

/-- Embedded from bindEnvs (src/enviper.go): dispatch on the value's kind --
a pointer is dereferenced (a nil pointer has an invalid element and falls to
the default case), structs, maps and slices go to their branches, and
everything else is bound directly.  The fuel is structural bookkeeping; the
orchestrator passes the type depth, which the recursion never exhausts. -/
def bindEnvsF (fuel : Nat) (st : VStore) (env : Env) (ty : GoTy) (v : GoVal)
    (prev : List String) : VStore × Env :=
  match fuel with
  | 0 => (st, env)
  | fuel + 1 =>
    match ty, v with
    | .ptr t, .vptr w => bindEnvsF fuel st env t w prev
    | .strct fs, .vstruct vs => bindFieldsF (bindEnvsF fuel) st env fs vs prev
    | .smap vt, .vmap es => bindEntriesF (bindEnvsF fuel) st env vt es prev
    | .slice et, w => bindSlice st env et w prev
    | _, _ => (bindKey st (dotJoin prev), env)

/-- Embedded from readEnvs (src/enviper.go): set the separator replacer on
the store, then run the binding traversal from the root. -/
def readEnvs (st : VStore) (env : Env) (ty : GoTy) (v : GoVal) : VStore × Env :=
  bindEnvsF (tyDepth ty) { st with replacerOn := true } env ty v []

/-- Result of the unmarshal operation. -/
inductive URes where
  | uok (v : GoVal) : URes
  | uerr (e : String) : URes
  deriving DecidableEq

/-- Outcome of loading the base source (viper.ReadInConfig): loaded content,
a missing-source condition, or any other failure. -/
inductive ReadResult where
  | rok (cfg : List (String × GoVal)) : ReadResult
  | rnotFound : ReadResult
  | rfail (e : String) : ReadResult
  deriving DecidableEq

/-- Shared overlay pipeline of Unmarshal after the base source was handled:
a first decode whose failures are discarded materializes the traversal
shape, readEnvs performs all bindings, and the second decode's outcome is
the operation's result. -/
def unmarshalCore (st : VStore) (env : Env) (ty : GoTy) : URes × VStore × Env :=
  let v1 := decodeF st env (tyDepth ty) ty []
  let r := readEnvs st env ty v1
  (.uok (decodeF r.1 r.2 (tyDepth ty) ty []), r.1, r.2)

/-- Embedded from Unmarshal (src/enviper.go): the base source is loaded
first; a missing source continues with the store's current content, any
other load failure returns immediately with the store and environment
untouched; otherwise the overlay pipeline runs. -/
def unmarshal (rd : ReadResult) (st : VStore) (env : Env) (ty : GoTy) :
    URes × VStore × Env :=
  match rd with
  | .rfail e => (.uerr e, st, env)
  | .rnotFound => unmarshalCore st env ty
  | .rok cfg => unmarshalCore { st with config := cfg } env ty

/-- Store with no content, no bindings, no prefix and no replacer rule. -/
def st0 : VStore := ⟨[], [], [], "", false⟩

/-! Claim theorems. -/

/-- C3: if reading the base source fails with any error other than the source
being absent, Unmarshal returns that error with the store and the process
environment untouched, so no environment variable has been read or bound; if
the source is merely absent, Unmarshal continues and completes the overlay
with a success result. -/
theorem c3_read_error_aborts (e : String) (st : VStore) (env : Env) (ty : GoTy) :
    unmarshal (.rfail e) st env ty = (.uerr e, st, env) ∧
    ∃ v st2 env2, unmarshal .rnotFound st env ty = (.uok v, st2, env2) := by
  refine ⟨rfl, ?_⟩
  exact ⟨_, _, _, rfl⟩

/-- Schema of claim C6: a single string-sequence field named list. -/
def tyC6 : GoTy := .strct (.fcons "list" none (.slice (.prim .sstr)) .fnil)

/-- C6: for the string-sequence field list bound to resolved name LIST with
no prefix, environment variables LIST_1=foo and LIST_2=bar (and no other
LIST_-prefixed variables) make the final decoded value of the field the
sequence holding foo then bar, in the order the environment enumeration
returns the matching variables. -/
theorem c6_sequence_merge :
    (unmarshal (.rok []) st0 [("LIST_1", "foo"), ("LIST_2", "bar")] tyC6).1 =
      .uok (.vstruct (.lcons
        (.vslice (.lcons (.vprim "foo") (.lcons (.vprim "bar") .lnil))) .lnil)) := by
  decide

/-- Schema of the C2 counterexample: one sequence field whose element type,
float64, is outside the supportedCast slice cases. -/
def tyC2x : GoTy := .strct (.fcons "xs" none (.slice (.prim .sfloat64)) .fnil)

/-- C2 counterexample: for a float64-sequence field set in the base source,
with an empty process environment (so the resolved variable XS is unset),
Unmarshal does not preserve the base value: the structured path writes a
synthesized JSON empty array into the environment and the final decoded
value of the field is the empty sequence, not the base sequence. -/
theorem c2_structured_sequence_cex :
    (unmarshal (.rok [("xs", .vslice (.lcons (.vprim "1.5") .lnil))]) st0 [] tyC2x).1 =
      .uok (.vstruct (.lcons (.vslice .lnil) .lnil)) ∧
    envLookup (unmarshal (.rok [("xs", .vslice (.lcons (.vprim "1.5") .lnil))])
        st0 [] tyC2x).2.2 "XS" = some "[]" ∧
    URes.uok (.vstruct (.lcons (.vslice .lnil) .lnil)) ≠
      .uok (.vstruct (.lcons (.vslice (.lcons (.vprim "1.5") .lnil)) .lnil)) := by
  refine ⟨by decide, by decide, by decide⟩

/-- Schema of the C7 counterexample: one boolean-sequence field. -/
def tyC7x : GoTy := .strct (.fcons "b" none (.slice (.prim .sbool)) .fnil)

/-- C7 counterexample: a sequence of booleans -- a text-representable
primitive element type -- is not accepted by supportedCast, and the binding
takes the structured JSON path: the value written back under the resolved
name B is the JSON array, not the space-joined string. -/
theorem c7_bool_sequence_cex :
    castedByViper (.slice (.prim .sbool)) = false ∧
    supportedCast (.slice (.prim .sbool)) (.vslice .lnil) = (.vslice .lnil, false) ∧
    envLookup (unmarshal (.rok []) st0 [("B_1", "true"), ("B_2", "false")] tyC7x).2.2
        "B" = some "[true,false]" ∧
    spaceJoin ["true", "false"] = "true false" := by
  refine ⟨rfl, rfl, by decide, by decide⟩

/-- C7 amended: the direct (space-join) path is taken exactly for sequences
whose own type is a slice of strings or a slice of ints; every other element
type, text-representable primitives included, takes the structured path. -/
theorem c7_direct_path_iff_string_or_int (et : GoTy) :
    castedByViper (.slice et) = true ↔ et = .prim .sstr ∨ et = .prim .sint := by
  cases et with
  | prim k => cases k <;> simp [castedByViper]
  | ptr t => simp [castedByViper]
  | smap vt => simp [castedByViper]
  | slice e2 => simp [castedByViper]
  | strct fs => simp [castedByViper]

/-- Schema of the C10 counterexample: two string-sequence fields whose tag
overrides give the resolved names X and X_Y, so the value the first run
writes under X_Y falls inside the underscore-prefixed scan range of X. -/
def tyC10x : GoTy :=
  .strct (.fcons "X1" (some "x") (.slice (.prim .sstr))
    (.fcons "X2" (some "x_y") (.slice (.prim .sstr)) .fnil))

/-- First run of the C10 counterexample. -/
def c10run1 : URes × VStore × Env :=
  unmarshal (.rok []) st0 [("X_Y_1", "v")] tyC10x

/-- Second run of the C10 counterexample, on the state the first run left. -/
def c10run2 : URes × VStore × Env :=
  unmarshal (.rok []) c10run1.2.1 c10run1.2.2 tyC10x

/-- C10 counterexample: with initial environment X_Y_1=v, the first run
decodes both sequence fields to the one-element sequence, but it also writes
X_Y=v into the environment; the second run's scan for X_ then collects that
entry too, so running Unmarshal twice yields a different decoded value --
the first field becomes a two-element sequence. -/
theorem c10_not_idempotent_cex :
    c10run1.1 = .uok (.vstruct (.lcons (.vslice (.lcons (.vprim "v") .lnil))
      (.lcons (.vslice (.lcons (.vprim "v") .lnil)) .lnil))) ∧
    c10run2.1 = .uok (.vstruct (.lcons
      (.vslice (.lcons (.vprim "v") (.lcons (.vprim "v") .lnil)))
      (.lcons (.vslice (.lcons (.vprim "v") .lnil)) .lnil))) ∧
    c10run2.1 ≠ c10run1.1 := by
  refine ⟨by decide, by decide, by decide⟩

/-! Helper lemmas on characters, strings and association lists. -/

/-- Upper-casing maps only the dot to the dot. -/
theorem toUpper_eq_dot (ch : Char) (h : Char.toUpper ch = '.') : ch = '.' := by
  by_cases hc : ch.toNat ≥ 97 ∧ ch.toNat ≤ 122
  · exfalso
    have h' : Char.ofNat (ch.toNat - 32) = '.' := by
      simpa [Char.toUpper, hc] using h
    obtain ⟨h1, h2⟩ := hc
    set n := ch.toNat with hn
    interval_cases n <;> (revert h'; decide)
  · simpa [Char.toUpper, hc] using h

/-- Character upper-casing is idempotent. -/
theorem toUpper_toUpper (ch : Char) :
    Char.toUpper (Char.toUpper ch) = Char.toUpper ch := by
  by_cases hc : ch.toNat ≥ 97 ∧ ch.toNat ≤ 122
  · obtain ⟨h1, h2⟩ := hc
    have he : ch = Char.ofNat ch.toNat := (Char.ofNat_toNat ch).symm
    set n := ch.toNat with hn
    interval_cases n <;> (rw [he]; decide)
  · simp [Char.toUpper, hc]

/-- Strings with equal character data are equal. -/
theorem str_ext {s t : String} (h : s.data = t.data) : s = t := by
  cases s; cases t; cases h; rfl

/-- Character data of an appended string. -/
theorem data_append (s t : String) : (s ++ t).data = s.data ++ t.data := rfl

/-- Upper-casing distributes over append. -/
theorem upperStr_append (s t : String) :
    upperStr (s ++ t) = upperStr s ++ upperStr t := by
  apply str_ext; simp [upperStr, data_append]

/-- Separator replacement distributes over append. -/
theorem replaceDots_append (s t : String) :
    replaceDots (s ++ t) = replaceDots s ++ replaceDots t := by
  apply str_ext; simp [replaceDots, data_append]

/-- Separator replacement fixes a string without dots. -/
theorem replaceDots_nodot (s : String) (h : '.' ∉ s.data) : replaceDots s = s := by
  apply str_ext
  simp only [replaceDots]
  apply List.map_congr_left ?_ |>.trans (List.map_id _)
  intro a ha
  simp [dotRepl]
  intro hdot
  exact absurd (hdot ▸ ha) h

/-- String upper-casing is idempotent. -/
theorem upperStr_idem (s : String) : upperStr (upperStr s) = upperStr s := by
  apply str_ext
  simp [upperStr, List.map_map, Function.comp]
  exact fun a _ => toUpper_toUpper a

/-- Separator replacement commutes with character upper-casing. -/
theorem dotRepl_toUpper (ch : Char) :
    dotRepl (Char.toUpper ch) = Char.toUpper (dotRepl ch) := by
  by_cases hd : ch = '.'
  · subst hd; decide
  · have h2 : Char.toUpper ch ≠ '.' := fun he => hd (toUpper_eq_dot ch he)
    simp [dotRepl, hd, h2]

/-- Separator replacement commutes with string upper-casing. -/
theorem replaceDots_upperStr (s : String) :
    replaceDots (upperStr s) = upperStr (replaceDots s) := by
  apply str_ext
  simp [replaceDots, upperStr, List.map_map, Function.comp]
  exact fun a _ => dotRepl_toUpper a

/-- Updating one key leaves lookups of other keys unchanged. -/
theorem alookup_setAssoc_ne {α : Type} (l : List (String × α)) (k k2 : String)
    (v : α) (h : k2 ≠ k) : alookup (setAssoc l k v) k2 = alookup l k2 := by
  induction l with
  | nil => simp [setAssoc, alookup, Ne.symm h]
  | cons p rest ih =>
    obtain ⟨n, w⟩ := p
    by_cases hnk : n = k
    · subst hnk
      simp [setAssoc, alookup, Ne.symm h]
    · simp [setAssoc, alookup, hnk, ih]

/-- Updating a key makes its lookup return the new value. -/
theorem alookup_setAssoc_self {α : Type} (l : List (String × α)) (k : String)
    (v : α) : alookup (setAssoc l k v) k = some v := by
  induction l with
  | nil => simp [setAssoc, alookup]
  | cons p rest ih =>
    obtain ⟨n, w⟩ := p
    by_cases hnk : n = k
    · subst hnk; simp [setAssoc, alookup]
    · simp [setAssoc, alookup, hnk, ih]

/-- A name=value rendering of the variable named k never starts with k
followed by an underscore: the equals sign comes first. -/
theorem pfx_sep_false (k j : String) :
    pfxOf (k ++ "_") (k ++ "=" ++ j) = false := by
  simp only [pfxOf, data_append]
  have h : ∀ cs : List Char,
      (cs ++ ('_' :: [])).isPrefixOf ((cs ++ ('=' :: [])) ++ j.data) = false := by
    intro cs
    induction cs with
    | nil => simp [List.isPrefixOf]
    | cons c rest ih => simpa [List.isPrefixOf] using ih
  exact h k.data

/-- A variable matched by the underscore-suffixed scan of key k is not k. -/
theorem matched_name_ne {k n v : String}
    (hm : pfxOf (k ++ "_") (n ++ "=" ++ v) = true) : n ≠ k := by
  intro he
  subst he
  rw [pfx_sep_false] at hm
  cases hm

/-- Scan of a variable listing against a separate lookup table; scanValues is
the special case where both are the same environment. -/
def scanTable (t : Env) (l : Env) (key : String) : List String :=
  l.filterMap (fun p =>
    if pfxOf (key ++ "_") (p.1 ++ "=" ++ p.2) then some ((envLookup t p.1).getD "")
    else none)

/-- The environment scan is the diagonal of scanTable. -/
theorem scanValues_eq_scanTable (env : Env) (key : String) :
    scanValues env key = scanTable env env key := rfl

/-- Tables agreeing away from the scanned key produce the same scan. -/
theorem scanTable_congr (t1 t2 : Env) (k : String)
    (ht : ∀ n, n ≠ k → alookup t1 n = alookup t2 n) (l : Env) :
    scanTable t1 l k = scanTable t2 l k := by
  induction l with
  | nil => rfl
  | cons p rest ih =>
    by_cases hm : pfxOf (k ++ "_") (p.1 ++ "=" ++ p.2) = true
    · have hne := matched_name_ne hm
      simp [scanTable, hm, envLookup, ht p.1 hne] at ih ⊢
      exact ih
    · simp [scanTable, hm] at ih ⊢
      exact ih

/-- Updating the scanned key itself changes nothing the scan collects. -/
theorem scanTable_setAssoc (t1 t2 : Env) (k j : String)
    (ht : ∀ n, n ≠ k → alookup t1 n = alookup t2 n) (l : Env) :
    scanTable t1 (setAssoc l k j) k = scanTable t2 l k := by
  induction l with
  | nil => simp [setAssoc, scanTable, pfx_sep_false]
  | cons p rest ih =>
    obtain ⟨n, v⟩ := p
    by_cases hnk : n = k
    · subst hnk
      have h1 : pfxOf (n ++ "_") (n ++ "=" ++ j) = false := pfx_sep_false n j
      have h2 : pfxOf (n ++ "_") (n ++ "=" ++ v) = false := pfx_sep_false n v
      simp [setAssoc, scanTable, h1, h2]
      exact scanTable_congr t1 t2 n ht rest
    · by_cases hm : pfxOf (k ++ "_") (n ++ "=" ++ v) = true
      · simp [setAssoc, hnk, scanTable, hm, envLookup, ht n hnk] at ih ⊢
        exact ih
      · simp [setAssoc, hnk, scanTable, hm] at ih ⊢
        exact ih

/-- Writing the resolved variable itself back does not change what the
underscore-suffixed scan for it collects. -/
theorem scanValues_setAssoc (env : Env) (k j : String) :
    scanValues (setAssoc env k j) k = scanValues env k := by
  rw [scanValues_eq_scanTable, scanValues_eq_scanTable]
  exact scanTable_setAssoc (setAssoc env k j) env k j
    (fun n hn => alookup_setAssoc_ne env k n j hn) env

/-- Re-writing the same value to the same key is absorbed. -/
theorem setAssoc_idem {α : Type} (l : List (String × α)) (k : String) (v : α) :
    setAssoc (setAssoc l k v) k v = setAssoc l k v := by
  induction l with
  | nil => simp [setAssoc]
  | cons p rest ih =>
    obtain ⟨n, w⟩ := p
    by_cases hnk : n = k
    · subst hnk; simp [setAssoc]
    · simp [setAssoc, hnk, ih]

/-- Schema of claim C1: a single string field with a symbolic name. -/
def tyC1 (n : String) : GoTy := .strct (.fcons n none (.prim .sstr) .fnil)

/-- C1: for a configuration key set in the base source whose resolved
environment variable is set (non-empty) in the process environment, the
value Unmarshal decodes for that key is the environment variable's value,
not the base-source value. -/
theorem c1_env_overrides_base (n b e : String) (env : Env)
    (hne : n ≠ "") (hlow : lowerStr n = n)
    (henv : envLookup env (replaceDots (upperStr n)) = some e) (he : e ≠ "") :
    (unmarshal (.rok [(n, .vprim b)]) st0 env (tyC1 n)).1 =
      .uok (.vstruct (.lcons (.vprim e) .lnil)) := by
  simp [unmarshal, unmarshalCore, readEnvs, tyC1, tyDepth, fieldsDepth, decodeF,
    decodeFieldsF, bindEnvsF, bindFieldsF, bindKey, viperGet, viperEnvName,
    getEnvOk, pathKey, dotJoin, alookup, hlow, hne, henv, he, st0]

/-- C1 witness: base source sets foo=1, environment sets FOO=2, and the
decoded value is 2. -/
theorem c1_env_overrides_base_witness :
    (unmarshal (.rok [("foo", .vprim "1")]) st0 [("FOO", "2")] (tyC1 "foo")).1 =
      .uok (.vstruct (.lcons (.vprim "2") .lnil)) :=
  c1_env_overrides_base "foo" "1" "2" [("FOO", "2")]
    (by decide) (by decide) (by decide) (by decide)

/-- Schema of the C2 amended theorem: a scalar field and a string-sequence
field. -/
def tyC2a : GoTy :=
  .strct (.fcons "s" none (.prim .sstr) (.fcons "xs" none (.slice (.prim .sstr)) .fnil))

/-- C2 amended: for scalar bindings and for sequence fields whose type the
direct cast accepts (slices of strings or ints), an environment holding
neither the resolved variables nor any underscore-suffixed match leaves the
final decoded values exactly at the base-source values: the lazy scalar
binding reads nothing, and the sequence path writes only an empty string,
which the store treats as unset.  (For other sequence element types the
claim fails: see the counterexample, where the structured path writes a
JSON empty array that overrides the base value.) -/
theorem c2_unset_env_preserves_base (b : String) (bs : VList) (env : Env)
    (hS : envLookup env "S" = none)
    (hscan : ∀ p ∈ env, pfxOf "XS_" (p.1 ++ "=" ++ p.2) = false) :
    (unmarshal (.rok [("s", .vprim b), ("xs", .vslice bs)]) st0 env tyC2a).1 =
      .uok (.vstruct (.lcons (.vprim b) (.lcons (.vslice bs) .lnil))) := by
  have hs' : alookup env "S" = none := hS
  have happ : "XS" ++ "_" = "XS_" := rfl
  have hvals : scanValues env "XS" = [] := by
    rw [scanValues, List.filterMap_eq_nil_iff]
    intro p hp
    rw [happ, hscan p hp]
    simp
  simp [unmarshal, unmarshalCore, readEnvs, tyC2a, tyDepth, fieldsDepth,
    decodeF, decodeFieldsF, bindEnvsF, bindFieldsF, bindSlice, bindKey,
    supportedCast, castedByViper, resolveEnvVarName, viperGet, viperEnvName,
    getEnvOk, pathKey, dotJoin, alookup, envLookup, envSet, spaceJoin,
    lowerStr, upperStr, replaceDots, dotRepl, st0, hvals, hs',
    alookup_setAssoc_ne, alookup_setAssoc_self]

/-- C2 amended witness: base values 7 and [a] survive an unrelated
environment. -/
theorem c2_unset_env_preserves_base_witness :
    (unmarshal (.rok [("s", .vprim "7"), ("xs", .vslice (.lcons (.vprim "a") .lnil))])
        st0 [("Z", "1")] tyC2a).1 =
      .uok (.vstruct (.lcons (.vprim "7")
        (.lcons (.vslice (.lcons (.vprim "a") .lnil)) .lnil))) :=
  c2_unset_env_preserves_base "7" (.lcons (.vprim "a") .lnil) [("Z", "1")]
    (by decide) (by decide)

/-- C4: for a field at nested path a.b.c with no tag overrides, both the
name computation of the slice-binding path (resolveEnvVarName) and the
store's binding-name resolution (viperEnvName) yield the segments joined by
underscores and upper-cased, with the upper-cased prefix and an underscore
prepended exactly when a prefix is configured. -/
theorem c4_env_var_name (p a b c : String)
    (hp : '.' ∉ p.data) (ha : '.' ∉ a.data) (hb : '.' ∉ b.data) (hc : '.' ∉ c.data) :
    resolveEnvVarName ⟨[], [], [], p, true⟩ (dotJoin [a, b, c]) =
      upperStr ((if p = "" then "" else p ++ "_") ++ (a ++ "_" ++ b ++ "_" ++ c)) ∧
    viperEnvName ⟨[], [], [], p, true⟩ (dotJoin [a, b, c]) =
      upperStr ((if p = "" then "" else p ++ "_") ++ (a ++ "_" ++ b ++ "_" ++ c)) := by
  have hdotu : replaceDots "." = "_" := rfl
  have hus : replaceDots "_" = "_" := rfl
  have hkey : replaceDots (dotJoin [a, b, c]) = (a ++ "_") ++ ((b ++ "_") ++ c) := by
    simp [dotJoin, replaceDots_append, replaceDots_nodot a ha,
      replaceDots_nodot b hb, replaceDots_nodot c hc, hdotu]
  constructor
  · by_cases hp0 : p = ""
    · simp [resolveEnvVarName, hp0, hkey]
      apply str_ext
      simp [upperStr, data_append, List.append_assoc]
    · simp [resolveEnvVarName, hp0, hkey, upperStr_idem]
      apply str_ext
      simp [upperStr, data_append, List.append_assoc]
  · by_cases hp0 : p = ""
    · simp [viperEnvName, hp0, replaceDots_upperStr, hkey]
      apply str_ext
      simp [upperStr, data_append, List.append_assoc]
    · simp [viperEnvName, hp0, replaceDots_upperStr, replaceDots_append,
        replaceDots_nodot p hp, hus, hkey]
      apply str_ext
      simp [upperStr, data_append, List.append_assoc]

/-- C4 witness: path a.b.c resolves to A_B_C without a prefix and to
PREFIX_A_B_C with the prefix "prefix" configured. -/
theorem c4_env_var_name_witness :
    resolveEnvVarName ⟨[], [], [], "", true⟩ "a.b.c" = "A_B_C" ∧
    viperEnvName ⟨[], [], [], "prefix", true⟩ "a.b.c" = "PREFIX_A_B_C" := by
  have h1 := (c4_env_var_name "" "a" "b" "c"
    (by decide) (by decide) (by decide) (by decide)).1
  have h2 := (c4_env_var_name "prefix" "a" "b" "c"
    (by decide) (by decide) (by decide) (by decide)).2
  exact ⟨h1.trans (by decide), h2.trans (by decide)⟩

/-- Schema of claim C5: a live string field g and a field h whose tag name
part is "-", of arbitrary subtree type. -/
def tyC5 (T : GoTy) : GoTy :=
  .strct (.fcons "g" none (.prim .sstr) (.fcons "h" (some "-,omitempty") T .fnil))

/-- C5: a skip-tagged field produces no binding for its subtree -- the only
binding the traversal registers is the live field's -- and the traversal
writes nothing into the environment; consequently any two process
environments agreeing on the live field's variable G (in particular two that
differ only in the skipped field's would-be variables) decode to the same
final result, whatever the skipped subtree's type. -/
theorem c5_skip_no_binding_no_effect (T : GoTy) (cfg : List (String × GoVal))
    (env1 env2 : Env)
    (hagree : envLookup env1 "G" = envLookup env2 "G") :
    (unmarshal (.rok cfg) st0 env1 (tyC5 T)).1 =
      (unmarshal (.rok cfg) st0 env2 (tyC5 T)).1 ∧
    (unmarshal (.rok cfg) st0 env1 (tyC5 T)).2.1.bindings = ["g"] ∧
    (unmarshal (.rok cfg) st0 env1 (tyC5 T)).2.2 = env1 := by
  have h2 : alookup env1 "G" = alookup env2 "G" := hagree
  refine ⟨?_, ?_, ?_⟩ <;>
    simp [unmarshal, unmarshalCore, readEnvs, tyC5, tyDepth, fieldsDepth,
      decodeF, decodeFieldsF, bindEnvsF, bindFieldsF, bindKey, viperGet,
      viperEnvName, getEnvOk, pathKey, dotJoin, alookup, envLookup, tagSplit,
      containsSub, hasSub, lowerStr, upperStr, replaceDots, dotRepl, st0, h2]

/-- C5 witness: with a nested-struct skipped subtree, environments differing
only in the skipped field's would-be variable decode identically. -/
theorem c5_skip_no_binding_no_effect_witness :
    (unmarshal (.rok []) st0 [("H", "1")]
        (tyC5 (.strct (.fcons "x" none (.prim .sstr) .fnil)))).1 =
      (unmarshal (.rok []) st0 [("H", "2")]
        (tyC5 (.strct (.fcons "x" none (.prim .sstr) .fnil)))).1 :=
  (c5_skip_no_binding_no_effect (.strct (.fcons "x" none (.prim .sstr) .fnil))
    [] [("H", "1")] [("H", "2")] (by decide)).1

/-- Schema of claim C8: a sequence field of structured (slice-of-strings)
element type, which takes the structured JSON path. -/
def tyC8 : GoTy := .strct (.fcons "xs" none (.slice (.slice (.prim .sstr))) .fnil)

/-- C8: the structured-sequence path never aborts on a JSON parse failure --
the type-coercion hook returns its input unchanged with a nil error whenever
JSON decoding of a string-to-slice value fails (the text unparsable, or the
parsed value not fitting the target slice's shape), its error component is
nil for every input, and in a run whose collected elements mix valid JSON
with an unparsable string, the failing element is kept as its raw string,
all elements are re-serialized as one JSON array under the resolved variable
name, Unmarshal still succeeds, and the final decode's hook rejects that
mixed array for the slice-of-slice-of-string target, again passing the raw
string through with a nil error. -/
theorem c8_parse_failure_graceful :
    (∀ (t : GoTy) (s : String), jsonParse s = none →
      sliceDecodeHook true t s = (.inl s, none)) ∧
    (∀ (t : GoTy) (s : String) (j : JVal), jsonParse s = some j →
      jsonFits t j = false → sliceDecodeHook true t s = (.inl s, none)) ∧
    (∀ (f : Bool) (t : GoTy) (s : String), (sliceDecodeHook f t s).2 = none) ∧
    jsonParse "oops" = none ∧
    envLookup (unmarshal (.rok []) st0 [("XS_1", "[\"a\"]"), ("XS_2", "oops")]
        tyC8).2.2 "XS" = some "[[\"a\"],\"oops\"]" ∧
    (∃ v, (unmarshal (.rok []) st0 [("XS_1", "[\"a\"]"), ("XS_2", "oops")]
        tyC8).1 = .uok v) ∧
    sliceDecodeHook true (.slice (.slice (.prim .sstr))) "[[\"a\"],\"oops\"]" =
      (.inl "[[\"a\"],\"oops\"]", none) := by
  refine ⟨?_, ?_, ?_, by decide, by decide, ⟨_, rfl⟩, by decide⟩
  · intro t s h
    cases t <;> simp [sliceDecodeHook, isSliceTy, h]
  · intro t s j hp hf
    cases t <;> simp [sliceDecodeHook, isSliceTy, hp, hf]
  · intro f t s
    cases f <;> cases t <;>
      simp [sliceDecodeHook, isSliceTy, apply_ite (Prod.snd)] <;>
      rcases hp : jsonParse s with _ | j <;>
        simp [hp, apply_ite (Prod.snd)]

/-- C8 witness: a string JSON cannot parse passes through the
string-to-slice hook unchanged with a nil error. -/
theorem c8_parse_failure_graceful_witness :
    sliceDecodeHook true (.slice (.slice (.prim .sstr))) "oops" =
      (.inl "oops", none) :=
  c8_parse_failure_graceful.1 (.slice (.slice (.prim .sstr))) "oops" (by decide)

/-- Schema of claim C9: an optional (pointer) nested-struct field with a
scalar leaf inside. -/
def tyC9 : GoTy :=
  .strct (.fcons "a" none (.ptr (.strct (.fcons "b" none (.prim .sstr) .fnil))) .fnil)

/-- C9: with a base source that omits the whole nested object a, the empty
pointer field is traversed as a zero value of its pointee, so the leaf
binding a.b is still registered and an environment variable A_B set to a
non-empty value populates the leaf inside the materialized object in the
final decoded result. -/
theorem c9_optional_populates (e : String) (he : e ≠ "") :
    (unmarshal (.rok []) st0 [("A_B", e)] tyC9).1 =
      .uok (.vstruct (.lcons (.vptr (.vstruct (.lcons (.vprim e) .lnil))) .lnil)) := by
  simp [unmarshal, unmarshalCore, readEnvs, tyC9, tyDepth, fieldsDepth, decodeF,
    decodeFieldsF, bindEnvsF, bindFieldsF, bindKey, viperGet, viperEnvName,
    getEnvOk, pathKey, dotJoin, alookup, envLookup, storeHasUnder, knownKeys,
    underKey, pfxOf, zeroVal, zeroFields, lowerStr, upperStr, replaceDots,
    dotRepl, he, st0]

/-- C9 witness: A_B=7 populates the leaf of the omitted nested object. -/
theorem c9_optional_populates_witness :
    (unmarshal (.rok []) st0 [("A_B", "7")] tyC9).1 =
      .uok (.vstruct (.lcons (.vptr (.vstruct (.lcons (.vprim "7") .lnil))) .lnil)) :=
  c9_optional_populates "7" (by decide)

/-- Schema of the C10 amended theorem: a scalar field and a string-sequence
field whose resolved names, S and XS, are not nested by an underscore. -/
def tyC10a : GoTy :=
  .strct (.fcons "s" none (.prim .sstr) (.fcons "xs" none (.slice (.prim .sstr)) .fnil))

/-- C10 amended: running Unmarshal twice in succession -- the second run
starting from the store and the mutated process environment the first run
left -- yields the same decoded value as one run, for every initial
environment and base source, provided no sequence field's resolved variable
name extended with an underscore is a prefix of another sequence variable's
name: the value the run writes back under a resolved name never matches that
name's own underscore-suffixed scan.  (When resolved names do nest that way,
idempotence fails: see the counterexample.) -/
theorem c10_idempotent_disjoint_names (cfg : List (String × GoVal)) (env : Env) :
    (unmarshal (.rok cfg) (unmarshal (.rok cfg) st0 env tyC10a).2.1
        (unmarshal (.rok cfg) st0 env tyC10a).2.2 tyC10a).1 =
      (unmarshal (.rok cfg) st0 env tyC10a).1 := by
  simp [unmarshal, unmarshalCore, readEnvs, tyC10a, tyDepth, fieldsDepth,
    decodeF, decodeFieldsF, bindEnvsF, bindFieldsF, bindSlice, bindKey,
    supportedCast, castedByViper, resolveEnvVarName, viperGet, viperEnvName,
    getEnvOk, pathKey, dotJoin, alookup, envLookup, envSet, st0,
    scanValues_setAssoc, setAssoc_idem, alookup_setAssoc_self,
    alookup_setAssoc_ne, lowerStr, upperStr, replaceDots, dotRepl]
  by_cases hj : spaceJoin (scanValues env "XS") = ""
  · rcases hc : alookup cfg "xs" with _ | w <;> simp [hj, hc]
  · simp [hj]
